import Mathlib

/-!
Verification of the credential-verification and rate-limiting subsystem
of `src/server/auth.ts` (route-mvm).

The TypeScript module keeps a module-level `Map<string, RateLimitEntry>`
(`rateLimitStore`) and reads the wall clock with `Date.now()`.  We embed
the store as a function `String → Option RateLimitEntry` and pass `now`
explicitly; every operation that mutates the store returns the new store.
JavaScript truthiness of the optional numeric field `blockedUntil`
(`entry.blockedUntil && ...`) is embedded as `blockedUntil.getD 0 ≠ 0`,
and truthiness of optional environment strings as "present and nonempty".
-/

namespace RouteMVM

/-- Embeds `interface RateLimitEntry` of src/server/auth.ts:
`attempts`, `lastAttempt` and optional `blockedUntil` (timestamps in ms). -/
structure RateLimitEntry where
  attempts : Nat
  lastAttempt : Nat
  blockedUntil : Option Nat
  deriving Repr, DecidableEq

/-- `const MAX_ATTEMPTS = 5`. -/
def MAX_ATTEMPTS : Nat := 5

/-- `const WINDOW_MS = 15 * 60 * 1000`. -/
def WINDOW_MS : Nat := 15 * 60 * 1000

/-- `const BLOCK_DURATION_MS = 30 * 60 * 1000`. -/
def BLOCK_DURATION_MS : Nat := 30 * 60 * 1000

/-- The module-level `rateLimitStore : Map<string, RateLimitEntry>`,
embedded as a function from keys to optional entries. -/
def Store : Type := String → Option RateLimitEntry

/-- The store at process start: the map is empty. -/
def emptyStore : Store := fun _ => none

/-- `rateLimitStore.set ip e` / `rateLimitStore.delete ip` (with `none`). -/
def setEntry (s : Store) (ip : String) (e : Option RateLimitEntry) : Store :=
  fun k => if k = ip then e else s k

/-- Return type of `checkRateLimit`: `{ allowed: boolean; retryAfter?: number }`. -/
structure CheckResult where
  allowed : Bool
  retryAfter : Option Nat
  deriving Repr, DecidableEq

/-- `Math.ceil(x / 1000)` for a non-negative integer `x`. -/
def ceilDiv1000 (x : Nat) : Nat := (x + 999) / 1000

/-- Embeds `checkRateLimit(ip)` of src/server/auth.ts.  The branches, in
source order: no entry → allowed; `entry.blockedUntil && entry.blockedUntil
> now` → not allowed with `retryAfter = Math.ceil((blockedUntil - now)/1000)`;
`now - entry.lastAttempt > WINDOW_MS` → delete entry, allowed;
`entry.attempts >= MAX_ATTEMPTS` → set `blockedUntil = now +
BLOCK_DURATION_MS`, not allowed with `retryAfter =
Math.ceil(BLOCK_DURATION_MS/1000)`; otherwise allowed. -/
def checkRateLimit (s : Store) (now : Nat) (ip : String) : CheckResult × Store :=
  match s ip with
  | none => (⟨true, none⟩, s)
  | some entry =>
    if entry.blockedUntil.getD 0 ≠ 0 ∧ now < entry.blockedUntil.getD 0 then
      (⟨false, some (ceilDiv1000 (entry.blockedUntil.getD 0 - now))⟩, s)
    else if WINDOW_MS < now - entry.lastAttempt then
      (⟨true, none⟩, setEntry s ip none)
    else if MAX_ATTEMPTS ≤ entry.attempts then
      (⟨false, some (ceilDiv1000 BLOCK_DURATION_MS)⟩,
        setEntry s ip (some { entry with blockedUntil := some (now + BLOCK_DURATION_MS) }))
    else
      (⟨true, none⟩, s)

/-- Embeds `recordFailedAttempt(ip)`: creates an entry with `attempts = 1`
and `lastAttempt = now` when none exists, otherwise increments `attempts`
and refreshes `lastAttempt`. -/
def recordFailedAttempt (s : Store) (now : Nat) (ip : String) : Store :=
  match s ip with
  | none => setEntry s ip (some ⟨1, now, none⟩)
  | some entry =>
    setEntry s ip (some { entry with attempts := entry.attempts + 1, lastAttempt := now })

/-- Embeds `resetRateLimit(ip)`: `rateLimitStore.delete(ip)`. -/
def resetRateLimit (s : Store) (ip : String) : Store := setEntry s ip none

/-- The per-entry decision of `cleanupRateLimitStore`: delete when
`entry.blockedUntil && entry.blockedUntil < now`, else delete when
`now - entry.lastAttempt > WINDOW_MS`, else keep. -/
def cleanupEntry (now : Nat) (e : RateLimitEntry) : Option RateLimitEntry :=
  if e.blockedUntil.getD 0 ≠ 0 ∧ e.blockedUntil.getD 0 < now then none
  else if WINDOW_MS < now - e.lastAttempt then none
  else some e

/-- Embeds `cleanupRateLimitStore()`: the forEach over the map applies the
per-entry decision independently to every entry. -/
def cleanupRateLimitStore (s : Store) (now : Nat) : Store :=
  fun k => (s k).bind (cleanupEntry now)

/-- One application of any of the four operations that touch the store
(`checkRateLimit`, `recordFailedAttempt`, `resetRateLimit`, and the
periodic `cleanupRateLimitStore` sweep), at an arbitrary time. -/
inductive Step : Store → Store → Prop where
  | check (s : Store) (now : Nat) (ip : String) : Step s (checkRateLimit s now ip).2
  | record (s : Store) (now : Nat) (ip : String) : Step s (recordFailedAttempt s now ip)
  | reset (s : Store) (ip : String) : Step s (resetRateLimit s ip)
  | cleanup (s : Store) (now : Nat) : Step s (cleanupRateLimitStore s now)

/-- A store is reachable when some sequence of operations produces it from
the empty store the process starts with. -/
def Reachable (s : Store) : Prop := Relation.ReflTransGen Step emptyStore s

/-- Store invariant: every entry that carries a `blockedUntil` has
`attempts ≥ MAX_ATTEMPTS` (only `checkRateLimit` sets `blockedUntil`, and
only when it observes `attempts ≥ MAX_ATTEMPTS`), and `blockedUntil` is
never the timestamp `0` (it is always `now + BLOCK_DURATION_MS > 0`). -/
def StoreInv (s : Store) : Prop :=
  ∀ ip e, s ip = some e →
    (e.blockedUntil ≠ none → MAX_ATTEMPTS ≤ e.attempts) ∧ e.blockedUntil ≠ some 0

/-- The environment variables read by src/server/auth.ts.  A `process.env`
variable is either absent (`none`) or a string; JavaScript truthiness of
an optional string (`if (!passwordHash)`) is "present and nonempty". -/
structure Env where
  ADMIN_PASSWORD_HASH : Option String
  NODE_ENV : Option String
  ADMIN_PASSWORD : Option String
  deriving Repr, DecidableEq

/-- JavaScript truthiness of an optional environment string:
`undefined` and `""` are falsy, every other string is truthy. -/
def jsTruthy : Option String → Bool
  | none => false
  | some s => decide (s ≠ "")

/-- Modelled from the spec: the abstract salted password-hashing primitive
(the imported `bcrypt` module, which is not part of this repository).
`hash p seed` is `bcrypt.hash(p, 10)` with the salt nondeterminism made
explicit as `seed`; `compare` is `bcrypt.compare`, which may throw
(`Except.error`).  The spec requires the contract: a hash produced from a
plaintext later verifies successfully via the comparison primitive (and a
produced hash is a nonempty string). -/
structure Bcrypt where
  hash : String → Nat → String
  compare : String → String → Except String Bool
  compare_hash : ∀ p seed, compare p (hash p seed) = .ok true
  hash_ne : ∀ p seed, hash p seed ≠ ""

/-- Embeds `verifyPassword(password)` of src/server/auth.ts: fail closed
when `ADMIN_PASSWORD_HASH` is falsy; inside the try block, in development
mode with a truthy `ADMIN_PASSWORD`, an exact match against that plaintext
succeeds; otherwise the result of `bcrypt.compare` is returned, and a
thrown comparison error is caught and turned into `false`. -/
def verifyPassword (B : Bcrypt) (env : Env) (password : String) : Bool :=
  if jsTruthy env.ADMIN_PASSWORD_HASH = false then false
  else if env.NODE_ENV = some "development" ∧ jsTruthy env.ADMIN_PASSWORD = true ∧
      env.ADMIN_PASSWORD = some password then true
  else
    match B.compare password (env.ADMIN_PASSWORD_HASH.getD "") with
    | .ok b => b
    | .error _ => false

/-- Embeds `generatePasswordHash(password)`: `bcrypt.hash(password, 10)`,
with the salt nondeterminism explicit as `seed`. -/
def generatePasswordHash (B : Bcrypt) (password : String) (seed : Nat) : String :=
  B.hash password seed

/-- Embeds `changePassword(currentPassword, newPassword)`.  The function
body never touches the module-level `rateLimitStore`, so the store is
threaded through unchanged; the `Option String` component is the hash the
function emits via `console.log` (`none` when nothing is emitted). -/
def changePassword (B : Bcrypt) (env : Env) (seed : Nat)
    (currentPassword newPassword : String) (s : Store) : Bool × Option String × Store :=
  let isValid := verifyPassword B env currentPassword
  if isValid = false then (false, none, s)
  else (true, some (generatePasswordHash B newPassword seed), s)

/-- A concrete instance of the hashing-primitive contract, used to
instantiate theorems at concrete inputs. -/
def modelBcrypt : Bcrypt where
  hash p _ := "$" ++ p
  compare c h := .ok (decide (h = "$" ++ c))
  compare_hash := by intro p seed; simp
  hash_ne := by
    intro p seed h
    have hlen := congrArg String.length h
    simp [String.length_append] at hlen
    exact absurd hlen.1 (by decide)

/-- Concrete store with one client at the attempt threshold. -/
def storeC1 : Store := setEntry emptyStore "a" (some ⟨5, 0, none⟩)

/-- Concrete store with one stale client entry. -/
def storeC7 : Store := setEntry emptyStore "a" (some ⟨3, 0, none⟩)

/-- Concrete store with one actively blocked client. -/
def storeC10 : Store := setEntry emptyStore "a" (some ⟨5, 0, some 10000⟩)

/-- Concrete store with one blocked-and-past-expiry client entry. -/
def storeC6 : Store := setEntry emptyStore "a" (some ⟨5, 0, some 10⟩)

/-- Concrete store with one expired-lockout client entry. -/
def storeC9 : Store := setEntry emptyStore "a" (some ⟨5, 0, some 10⟩)

/-- Concrete store with one sub-threshold client entry. -/
def storeC4 : Store := setEntry emptyStore "a" (some ⟨3, 0, none⟩)

theorem storeInv_empty : StoreInv emptyStore := by
  intro ip e h
  simp [emptyStore] at h

theorem storeInv_step {s s' : Store} (hstep : Step s s') (hinv : StoreInv s) : StoreInv s' := by
  cases hstep with
  | check now ip =>
    intro k e hk
    rcases hsip : s ip with _ | entry
    · simp only [checkRateLimit, hsip] at hk
      exact hinv k e hk
    · simp only [checkRateLimit, hsip] at hk
      split_ifs at hk with h1 h2 h3
      · exact hinv k e hk
      · by_cases hki : k = ip
        · simp [setEntry, hki] at hk
        · simp only [setEntry, if_neg hki] at hk
          exact hinv k e hk
      · by_cases hki : k = ip
        · simp only [setEntry, if_pos hki] at hk
          cases hk
          refine ⟨fun _ => h3, ?_⟩
          simp [BLOCK_DURATION_MS]
        · simp only [setEntry, if_neg hki] at hk
          exact hinv k e hk
      · exact hinv k e hk
  | record now ip =>
    intro k e hk
    rcases hsip : s ip with _ | entry
    · simp only [recordFailedAttempt, hsip] at hk
      by_cases hki : k = ip
      · simp only [setEntry, if_pos hki] at hk
        cases hk
        exact ⟨fun h => absurd rfl h, by simp⟩
      · simp only [setEntry, if_neg hki] at hk
        exact hinv k e hk
    · simp only [recordFailedAttempt, hsip] at hk
      by_cases hki : k = ip
      · simp only [setEntry, if_pos hki] at hk
        cases hk
        have hold := hinv ip entry hsip
        exact ⟨fun h => Nat.le_succ_of_le (hold.1 h), hold.2⟩
      · simp only [setEntry, if_neg hki] at hk
        exact hinv k e hk
  | reset ip =>
    intro k e hk
    by_cases hki : k = ip
    · simp [resetRateLimit, setEntry, hki] at hk
    · simp only [resetRateLimit, setEntry, if_neg hki] at hk
      exact hinv k e hk
  | cleanup now =>
    intro k e hk
    simp only [cleanupRateLimitStore] at hk
    rcases hsk : s k with _ | e0
    · simp [hsk] at hk
    · rw [hsk] at hk
      simp only [Option.some_bind] at hk
      unfold cleanupEntry at hk
      split_ifs at hk
      cases hk
      exact hinv k e hsk

theorem storeInv_reachable {s : Store} (h : Reachable s) : StoreInv s := by
  induction h with
  | refl => exact storeInv_empty
  | tail _ hstep ih => exact storeInv_step hstep ih

/-- Claim C1: for every client whose entry is not currently blocked, whose
lastAttempt is within the window, and whose attempts count has reached the
threshold, `checkRateLimit` sets blockedUntil of that entry to
`now + BLOCK_DURATION_MS` and returns not-allowed with retryAfter equal to
the lockout duration in seconds (1800). -/
theorem C1_lazy_lockout (s : Store) (now : Nat) (ip : String) (e : RateLimitEntry)
    (hin : s ip = some e)
    (hnb : ∀ b, e.blockedUntil = some b → b ≤ now)
    (hwin : now - e.lastAttempt ≤ WINDOW_MS)
    (hmax : MAX_ATTEMPTS ≤ e.attempts) :
    (checkRateLimit s now ip).1 = ⟨false, some 1800⟩ ∧
    (checkRateLimit s now ip).2 ip =
      some { e with blockedUntil := some (now + BLOCK_DURATION_MS) } := by
  have hb : ¬ (e.blockedUntil.getD 0 ≠ 0 ∧ now < e.blockedUntil.getD 0) := by
    rcases hbu : e.blockedUntil with _ | b
    · simp
    · have := hnb b hbu
      simp only [Option.getD_some]
      omega
  simp only [checkRateLimit, hin]
  rw [if_neg hb, if_neg (by omega : ¬ WINDOW_MS < now - e.lastAttempt), if_pos hmax]
  refine ⟨?_, by simp [setEntry]⟩
  norm_num [ceilDiv1000, BLOCK_DURATION_MS]

theorem C1_lazy_lockout_witness :
    (checkRateLimit storeC1 0 "a").1 = ⟨false, some 1800⟩ ∧
    (checkRateLimit storeC1 0 "a").2 "a" =
      some { (⟨5, 0, none⟩ : RateLimitEntry) with blockedUntil := some (0 + BLOCK_DURATION_MS) } :=
  C1_lazy_lockout storeC1 0 "a" ⟨5, 0, none⟩ (by decide)
    (fun b hb => by cases hb) (by decide) (by decide)

/-- Claim C7: for every client whose entry is stale (lastAttempt older than
the window) and not actively blocked, `checkRateLimit` deletes the entry
and returns allowed; a failed attempt recorded right after that check
restarts the counter at `attempts = 1`. -/
theorem C7_stale_window (s : Store) (now : Nat) (ip : String) (e : RateLimitEntry)
    (hin : s ip = some e)
    (hnb : ∀ b, e.blockedUntil = some b → b ≤ now)
    (hstale : WINDOW_MS < now - e.lastAttempt) :
    (checkRateLimit s now ip).1 = ⟨true, none⟩ ∧
    (checkRateLimit s now ip).2 ip = none ∧
    ∀ now2, recordFailedAttempt (checkRateLimit s now ip).2 now2 ip ip =
      some ⟨1, now2, none⟩ := by
  have hb : ¬ (e.blockedUntil.getD 0 ≠ 0 ∧ now < e.blockedUntil.getD 0) := by
    rcases hbu : e.blockedUntil with _ | b
    · simp
    · have := hnb b hbu
      simp only [Option.getD_some]
      omega
  simp only [checkRateLimit, hin]
  rw [if_neg hb, if_pos hstale]
  refine ⟨rfl, by simp [setEntry], fun now2 => ?_⟩
  have hdel : setEntry s ip none ip = none := by simp [setEntry]
  simp [recordFailedAttempt, hdel, setEntry]

theorem C7_stale_window_witness :
    (checkRateLimit storeC7 1000000 "a").1 = ⟨true, none⟩ ∧
    (checkRateLimit storeC7 1000000 "a").2 "a" = none ∧
    ∀ now2, recordFailedAttempt (checkRateLimit storeC7 1000000 "a").2 now2 "a" "a" =
      some ⟨1, now2, none⟩ :=
  C7_stale_window storeC7 1000000 "a" ⟨3, 0, none⟩ (by decide)
    (fun b hb => by cases hb) (by decide)

/-- Claim C8: `resetRateLimit` deletes the entry of the client
unconditionally, whatever the store holds (active lockout included), and a
`checkRateLimit` call immediately afterwards returns allowed. -/
theorem C8_reset_clears (s : Store) (now : Nat) (ip : String) :
    resetRateLimit s ip ip = none ∧
    (checkRateLimit (resetRateLimit s ip) now ip).1 = ⟨true, none⟩ := by
  have hdel : resetRateLimit s ip ip = none := by simp [resetRateLimit, setEntry]
  exact ⟨hdel, by simp [checkRateLimit, hdel]⟩

/-- Claim C10: whenever `checkRateLimit` returns not-allowed the retryAfter
field is present and at least 1 second; whenever it returns allowed no
retryAfter field is produced. -/
theorem C10_retryAfter_shape (s : Store) (now : Nat) (ip : String) :
    ((checkRateLimit s now ip).1.allowed = false →
      ∃ n, (checkRateLimit s now ip).1.retryAfter = some n ∧ 1 ≤ n) ∧
    ((checkRateLimit s now ip).1.allowed = true →
      (checkRateLimit s now ip).1.retryAfter = none) := by
  rcases hsip : s ip with _ | e
  · simp [checkRateLimit, hsip]
  · simp only [checkRateLimit, hsip]
    split_ifs with h1 h2 h3
    · refine ⟨fun _ => ⟨ceilDiv1000 (e.blockedUntil.getD 0 - now), rfl, ?_⟩, by simp⟩
      unfold ceilDiv1000
      rw [Nat.le_div_iff_mul_le (by norm_num)]
      omega
    · simp
    · refine ⟨fun _ => ⟨1800, ?_, by norm_num⟩, by simp⟩
      norm_num [ceilDiv1000, BLOCK_DURATION_MS]
    · simp

theorem C10_retryAfter_shape_witness :
    (∃ n, (checkRateLimit storeC10 5 "a").1.retryAfter = some n ∧ 1 ≤ n) ∧
    (checkRateLimit storeC10 5 "b").1.retryAfter = none :=
  ⟨(C10_retryAfter_shape storeC10 5 "a").1 (by decide),
   (C10_retryAfter_shape storeC10 5 "b").2 (by decide)⟩

/-- Claim C2: in every reachable store, a client with no entry, or with an
entry holding fewer than `MAX_ATTEMPTS` attempts, or with a stale entry
(no attempts inside the current window) is allowed by `checkRateLimit`;
reachability supplies that no under-threshold entry carries a
blockedUntil. -/
theorem C2_under_threshold_allowed (s : Store) (now : Nat) (ip : String)
    (hreach : Reachable s)
    (hlow : s ip = none ∨ ∃ e, s ip = some e ∧ e.attempts < MAX_ATTEMPTS) :
    (checkRateLimit s now ip).1.allowed = true := by
  rcases hlow with hnone | ⟨e, hin, hatt⟩
  · simp [checkRateLimit, hnone]
  · have hinv := storeInv_reachable hreach ip e hin
    have hbu : e.blockedUntil = none := by
      rcases hbu : e.blockedUntil with _ | b
      · rfl
      · have := hinv.1 (by simp [hbu])
        omega
    simp only [checkRateLimit, hin, hbu]
    split_ifs with h1 h2 h3
    · simp at h1
    · rfl
    · omega
    · rfl

theorem C2_under_threshold_allowed_witness :
    (checkRateLimit (recordFailedAttempt emptyStore 0 "a") 1 "a").1.allowed = true :=
  C2_under_threshold_allowed (recordFailedAttempt emptyStore 0 "a") 1 "a"
    (Relation.ReflTransGen.single (Step.record emptyStore 0 "a"))
    (Or.inr ⟨⟨1, 0, none⟩, by decide, by decide⟩)

/-- Claim C9: one run of the sweep deletes exactly the entries whose
blockedUntil is set and expired (strictly before now) or whose lastAttempt
is older than the window, and keeps every other entry unchanged.  The
hypothesis `blockedUntil ≠ some 0` reflects that installed lockout
timestamps are always positive (`now + BLOCK_DURATION_MS`). -/
theorem C9_cleanup_exact (s : Store) (now : Nat) (ip : String) (e : RateLimitEntry)
    (hin : s ip = some e) (hnz : e.blockedUntil ≠ some 0) :
    (cleanupRateLimitStore s now ip = none ↔
      (∃ b, e.blockedUntil = some b ∧ b < now) ∨ WINDOW_MS < now - e.lastAttempt) ∧
    (cleanupRateLimitStore s now ip ≠ none → cleanupRateLimitStore s now ip = some e) := by
  simp only [cleanupRateLimitStore, hin, Option.some_bind]
  unfold cleanupEntry
  rcases hbu : e.blockedUntil with _ | b
  · rw [if_neg (by simp)]
    split_ifs with h2
    · refine ⟨⟨fun _ => Or.inr h2, fun _ => rfl⟩, fun h => absurd rfl h⟩
    · refine ⟨⟨fun h => absurd h (by simp), ?_⟩, fun _ => rfl⟩
      intro h
      rcases h with ⟨b2, hb2, _⟩ | hst
      · cases hb2
      · exact absurd hst h2
  · have hb0 : b ≠ 0 := fun h => hnz (by rw [hbu, h])
    simp only [Option.getD_some]
    split_ifs with h1 h2
    · refine ⟨⟨fun _ => Or.inl ⟨b, rfl, h1.2⟩, fun _ => rfl⟩, fun h => absurd rfl h⟩
    · refine ⟨⟨fun _ => Or.inr h2, fun _ => rfl⟩, fun h => absurd rfl h⟩
    · refine ⟨⟨fun h => absurd h (by simp), ?_⟩, fun _ => rfl⟩
      intro h
      rcases h with ⟨b2, hb2, hlt⟩ | hst
      · cases hb2
        exact absurd ⟨hb0, hlt⟩ h1
      · exact absurd hst h2

theorem C9_cleanup_exact_witness :
    (cleanupRateLimitStore storeC9 100 "a" = none ↔
      (∃ b, (⟨5, 0, some 10⟩ : RateLimitEntry).blockedUntil = some b ∧ b < 100) ∨
        WINDOW_MS < 100 - (⟨5, 0, some 10⟩ : RateLimitEntry).lastAttempt) ∧
    (cleanupRateLimitStore storeC9 100 "a" ≠ none →
      cleanupRateLimitStore storeC9 100 "a" = some ⟨5, 0, some 10⟩) :=
  C9_cleanup_exact storeC9 100 "a" ⟨5, 0, some 10⟩ (by decide) (by decide)

/-- Claim C6: across any single operation, an entry that survives with a
blockedUntil set before keeps one set after, and the value never
decreases (so blockedUntil disappears only with the whole entry); and
`recordFailedAttempt` never sets blockedUntil — any blockedUntil present
after it was already present, with the same value, before. -/
theorem C6_blockedUntil_monotone :
    (∀ s s', Step s s' → ∀ ip e e', s ip = some e → s' ip = some e' →
      ∀ b, e.blockedUntil = some b → ∃ b', e'.blockedUntil = some b' ∧ b ≤ b') ∧
    (∀ s now ip k e', recordFailedAttempt s now ip k = some e' →
      e'.blockedUntil ≠ none →
      ∃ e, s k = some e ∧ e.blockedUntil = e'.blockedUntil) := by
  constructor
  · intro s s' hstep ip e e' hin hin' b hbu
    cases hstep with
    | check now ip0 =>
      rcases hsip : s ip0 with _ | entry
      · simp only [checkRateLimit, hsip] at hin'
        rw [hin] at hin'
        cases hin'
        exact ⟨b, hbu, le_refl b⟩
      · simp only [checkRateLimit, hsip] at hin'
        split_ifs at hin' with h1 h2 h3
        · have hse : s ip = some e' := hin'
          rw [hin] at hse
          cases hse
          exact ⟨b, hbu, le_refl b⟩
        · by_cases hki : ip = ip0
          · simp [setEntry, hki] at hin'
          · simp only [setEntry, if_neg hki] at hin'
            rw [hin] at hin'
            cases hin'
            exact ⟨b, hbu, le_refl b⟩
        · by_cases hki : ip = ip0
          · subst hki
            rw [hin] at hsip
            cases hsip
            simp only [setEntry, if_pos rfl] at hin'
            cases hin'
            refine ⟨now + BLOCK_DURATION_MS, rfl, ?_⟩
            rw [hbu] at h1
            simp only [Option.getD_some] at h1
            omega
          · simp only [setEntry, if_neg hki] at hin'
            rw [hin] at hin'
            cases hin'
            exact ⟨b, hbu, le_refl b⟩
        · have hse : s ip = some e' := hin'
          rw [hin] at hse
          cases hse
          exact ⟨b, hbu, le_refl b⟩
    | record now ip0 =>
      rcases hsip : s ip0 with _ | entry
      · simp only [recordFailedAttempt, hsip] at hin'
        by_cases hki : ip = ip0
        · subst hki
          rw [hin] at hsip
          cases hsip
        · simp only [setEntry, if_neg hki] at hin'
          rw [hin] at hin'
          cases hin'
          exact ⟨b, hbu, le_refl b⟩
      · simp only [recordFailedAttempt, hsip] at hin'
        by_cases hki : ip = ip0
        · subst hki
          rw [hin] at hsip
          cases hsip
          simp only [setEntry, if_pos rfl] at hin'
          cases hin'
          exact ⟨b, hbu, le_refl b⟩
        · simp only [setEntry, if_neg hki] at hin'
          rw [hin] at hin'
          cases hin'
          exact ⟨b, hbu, le_refl b⟩
    | reset ip0 =>
      by_cases hki : ip = ip0
      · simp [resetRateLimit, setEntry, hki] at hin'
      · simp only [resetRateLimit, setEntry, if_neg hki] at hin'
        rw [hin] at hin'
        cases hin'
        exact ⟨b, hbu, le_refl b⟩
    | cleanup now =>
      simp only [cleanupRateLimitStore, hin, Option.some_bind] at hin'
      unfold cleanupEntry at hin'
      split_ifs at hin'
      cases hin'
      exact ⟨b, hbu, le_refl b⟩
  · intro s now ip k e' hin' hbu'
    rcases hsip : s ip with _ | entry
    · simp only [recordFailedAttempt, hsip] at hin'
      by_cases hki : k = ip
      · simp only [setEntry, if_pos hki] at hin'
        cases hin'
        exact absurd rfl hbu'
      · simp only [setEntry, if_neg hki] at hin'
        exact ⟨e', hin', rfl⟩
    · simp only [recordFailedAttempt, hsip] at hin'
      by_cases hki : k = ip
      · simp only [setEntry, if_pos hki] at hin'
        cases hin'
        subst hki
        exact ⟨entry, hsip, rfl⟩
      · simp only [setEntry, if_neg hki] at hin'
        exact ⟨e', hin', rfl⟩

theorem C6_blockedUntil_monotone_witness :
    (∃ b', (⟨6, 3, some 10⟩ : RateLimitEntry).blockedUntil = some b' ∧ 10 ≤ b') ∧
    (∃ e, storeC6 "a" = some e ∧
      e.blockedUntil = (⟨6, 3, some 10⟩ : RateLimitEntry).blockedUntil) :=
  ⟨C6_blockedUntil_monotone.1 storeC6 (recordFailedAttempt storeC6 3 "a")
      (Step.record storeC6 3 "a") "a" ⟨5, 0, some 10⟩ ⟨6, 3, some 10⟩
      (by decide) (by decide) 10 rfl,
   C6_blockedUntil_monotone.2 storeC6 3 "a" "a" ⟨6, 3, some 10⟩ (by decide) (by decide)⟩

/-- Claim C3: `verifyPassword` fails closed — for every candidate and
every hashing primitive, in every mode (development mode with a plaintext
fallback configured included), when no secret hash is configured (variable
absent or empty, i.e. falsy) the function returns false; as a total
function of the embedding it never propagates an exception. -/
theorem C3_fails_closed (B : Bcrypt) (env : Env) (password : String)
    (h : jsTruthy env.ADMIN_PASSWORD_HASH = false) :
    verifyPassword B env password = false := by
  simp [verifyPassword, h]

theorem C3_fails_closed_witness :
    verifyPassword modelBcrypt ⟨some "", some "development", some "pw"⟩ "pw" = false :=
  C3_fails_closed modelBcrypt ⟨some "", some "development", some "pw"⟩ "pw" (by decide)

/-- Claim C4: when the current password does not verify, `changePassword`
returns false, emits no new hash, and leaves the rate-limit store exactly
as it was, whatever the proposed password is. -/
theorem C4_no_side_effects (B : Bcrypt) (env : Env) (seed : Nat)
    (currentPassword newPassword : String) (s : Store)
    (h : verifyPassword B env currentPassword = false) :
    changePassword B env seed currentPassword newPassword s = (false, none, s) := by
  simp [changePassword, h]

theorem C4_no_side_effects_witness :
    changePassword modelBcrypt ⟨some "$x", none, none⟩ 0 "y" "newpassword" storeC4 =
      (false, none, storeC4) :=
  C4_no_side_effects modelBcrypt ⟨some "$x", none, none⟩ 0 "y" "newpassword" storeC4
    (by decide)

/-- Claim C5: for every plaintext of length at least 1 and every salt
seed, installing the hash produced by `generatePasswordHash` as the
configured secret makes `verifyPassword` accept that plaintext, for every
hashing primitive satisfying the bcrypt contract (so byte-identity of
repeated hashes is not required). -/
theorem C5_roundTrip (B : Bcrypt) (env : Env) (p : String) (seed : Nat)
    (hlen : 1 ≤ p.length) :
    verifyPassword B
      { env with ADMIN_PASSWORD_HASH := some (generatePasswordHash B p seed) } p = true := by
  have hne := B.hash_ne p seed
  unfold verifyPassword generatePasswordHash
  rw [if_neg (by simp [jsTruthy, hne])]
  split_ifs with h2
  · rfl
  · simp [B.compare_hash]

theorem C5_roundTrip_witness :
    verifyPassword modelBcrypt
      { (⟨none, none, none⟩ : Env) with
        ADMIN_PASSWORD_HASH := some (generatePasswordHash modelBcrypt "a" 0) } "a" = true :=
  C5_roundTrip modelBcrypt ⟨none, none, none⟩ "a" 0 (by decide)

end RouteMVM
